import Mathlib

/-!
Verification of the fastxor module (a C extension exposing `xor64`,
`xor` and `get_info` to Python).  The repository ships only the
benchmark/edge-case test (`fastxor_test.py`) and the build script
(`setup.py`); the C kernel itself (`fastxor.c`, listed as the only
source of the extension in `setup.py`) is not present, so the kernels
below are modelled from the specification, with the byte-by-byte
reference XOR taken from the Python test.

Buffers are embedded as `List Nat` whose entries are bytes (`< 256`);
machine 64-bit words are `Nat` packed little-endian from 8 bytes, with
`Nat.xor` acting on whole words exactly as the hardware XOR does.
-/

namespace Fastxor

/-- Modelled from the spec: WORD_SIZE = 8 bytes, the fixed word size of
the aligned strategy (spec open question in design notes: hard-coded). -/
def WORD_SIZE : Nat := 8

/-- Modelled from the spec: the error taxonomy of the validator,
LengthMismatch carrying both offending lengths, Unaligned carrying the
length and the required multiple. -/
inductive FXError where
  | lengthMismatch (lenA lenB : Nat)
  | unaligned (len required : Nat)
deriving DecidableEq

/-- Modelled from the spec and the test: both validation failure kinds
surface to Python callers as the concrete exception type `ValueError`
(the test catches `ValueError` for the 7-byte call and for the
mismatched-length call alike). -/
def pyExcType : FXError → String
  | .lengthMismatch _ _ => "ValueError"
  | .unaligned _ _ => "ValueError"

/-- Byte-by-byte reference XOR, from `fastxor_test.py` lines 52-55:
`bytes(a ^ b for a, b in zip(c1, c2))`. -/
def refXor (a b : List Nat) : List Nat :=
  List.zipWith (fun x y => x ^^^ y) a b

/-- Little-endian packing of a byte sequence into one machine word. -/
def bytesToWord (bs : List Nat) : Nat :=
  bs.foldr (fun c acc => c + 256 * acc) 0

/-- Little-endian unpacking of a machine word into `k` bytes. -/
def wordToBytes : Nat → Nat → List Nat
  | 0, _ => []
  | k + 1, n => (n % 256) :: wordToBytes k (n / 256)

/-- Modelled from the spec: the general kernel of `xor` processes
`len / WORD_SIZE` full 8-byte words by 64-bit word XOR, then the
remaining `len mod WORD_SIZE` tail bytes individually by byte XOR.
The first argument is the word count `len / WORD_SIZE`. -/
def wordLoop : Nat → List Nat → List Nat → List Nat
  | 0, a, b => refXor a b
  | k + 1, a, b =>
      wordToBytes 8 (bytesToWord (a.take 8) ^^^ bytesToWord (b.take 8))
        ++ wordLoop k (a.drop 8) (b.drop 8)

/-- Modelled from the spec: the aligned kernel of `xor64` processes
exactly `len / WORD_SIZE` full 8-byte words by 64-bit word XOR; no
partial words exist by construction after validation. -/
def alignedLoop : Nat → List Nat → List Nat → List Nat
  | 0, _, _ => []
  | k + 1, a, b =>
      wordToBytes 8 (bytesToWord (a.take 8) ^^^ bytesToWord (b.take 8))
        ++ alignedLoop k (a.drop 8) (b.drop 8)

/-- Modelled from the spec: `fastxor.xor` (xor_flexible).  Single
precondition `len(A) == len(B)`; on success the general kernel runs. -/
def xor (a b : List Nat) : Except FXError (List Nat) :=
  if a.length = b.length then
    Except.ok (wordLoop (a.length / WORD_SIZE) a b)
  else
    Except.error (FXError.lengthMismatch a.length b.length)

/-- Modelled from the spec: `fastxor.xor64` (xor_aligned).  Checks, in
order, length equality then word alignment of the length; on success
the aligned kernel runs. -/
def xor64 (a b : List Nat) : Except FXError (List Nat) :=
  if a.length ≠ b.length then
    Except.error (FXError.lengthMismatch a.length b.length)
  else if a.length % WORD_SIZE ≠ 0 then
    Except.error (FXError.unaligned a.length WORD_SIZE)
  else
    Except.ok (alignedLoop (a.length / WORD_SIZE) a b)

/-- Static metadata record returned by `get_info`. -/
structure ModuleInfo where
  word_size : Nat
  version : String
  strategy : String
deriving DecidableEq

/-- Modelled from the spec: `fastxor.get_info` (get_capabilities), a
pure constant record; the version string is the MODULE_VERSION macro
"1.0.0" defined in `setup.py`. -/
def get_info : ModuleInfo :=
  ⟨WORD_SIZE, "1.0.0", "64-bit word XOR"⟩

/-- A buffer is a list of bytes, each strictly below 256. -/
def isByteBuf (a : List Nat) : Prop :=
  ∀ v ∈ a, v < 256

instance (a : List Nat) : Decidable (isByteBuf a) := by
  unfold isByteBuf
  infer_instance

theorem xor_byte_lt {a b : Nat} (ha : a < 256) (hb : b < 256) :
    a ^^^ b < 256 := by
  have h256 : (256 : Nat) = 2 ^ 8 := by norm_num
  rw [h256] at ha hb ⊢
  exact Nat.xor_lt_two_pow ha hb

theorem testBit_add_mul256 (a x : Nat) (ha : a < 256) (j : Nat) :
    (a + 256 * x).testBit j = if j < 8 then a.testBit j else x.testBit (j - 8) := by
  rcases Nat.lt_or_ge j 8 with hj | hj
  · rw [if_pos hj, Nat.testBit_to_div_mod, Nat.testBit_to_div_mod]
    have hsplit : 256 * x = 2 ^ j * (2 * (2 ^ (7 - j) * x)) := by
      have hj7 : j + 1 + (7 - j) = 8 := by omega
      calc 256 * x = 2 ^ 8 * x := by norm_num
        _ = 2 ^ (j + 1 + (7 - j)) * x := by rw [hj7]
        _ = (2 ^ j * 2 ^ 1 * 2 ^ (7 - j)) * x := by
              rw [← Nat.pow_add, ← Nat.pow_add]
        _ = 2 ^ j * (2 * (2 ^ (7 - j) * x)) := by ring
    rw [hsplit, Nat.add_mul_div_left _ _ (Nat.two_pow_pos j),
        Nat.add_mul_mod_self_left]
  · rw [if_neg (by omega), Nat.testBit_to_div_mod, Nat.testBit_to_div_mod]
    have hpow : (2 : Nat) ^ j = 256 * 2 ^ (j - 8) := by
      have h256 : (256 : Nat) = 2 ^ 8 := by norm_num
      rw [h256, ← Nat.pow_add]
      congr 1
      omega
    rw [hpow, ← Nat.div_div_eq_div_mul,
        Nat.add_mul_div_left _ _ (by norm_num : (0 : Nat) < 256),
        Nat.div_eq_of_lt ha, Nat.zero_add]

theorem xor_byte_peel (a b x y : Nat) (ha : a < 256) (hb : b < 256) :
    (a + 256 * x) ^^^ (b + 256 * y) = (a ^^^ b) + 256 * (x ^^^ y) := by
  apply Nat.eq_of_testBit_eq
  intro j
  rw [Nat.testBit_xor, testBit_add_mul256 a x ha j, testBit_add_mul256 b y hb j,
      testBit_add_mul256 (a ^^^ b) (x ^^^ y) (xor_byte_lt ha hb) j,
      Nat.testBit_xor, Nat.testBit_xor]
  rcases Nat.lt_or_ge j 8 with hj | hj
  · simp [if_pos hj]
  · simp [if_neg (Nat.not_lt.mpr hj)]

theorem bytesToWord_cons (c : Nat) (cs : List Nat) :
    bytesToWord (c :: cs) = c + 256 * bytesToWord cs := rfl

theorem wordToBytes_xor : ∀ (k : Nat) (a b : List Nat), a.length = k → b.length = k →
    isByteBuf a → isByteBuf b →
    wordToBytes k (bytesToWord a ^^^ bytesToWord b) = refXor a b := by
  intro k
  induction k with
  | zero =>
    intro a b ha0 hb0 _ _
    rw [List.eq_nil_of_length_eq_zero ha0, List.eq_nil_of_length_eq_zero hb0]
    rfl
  | succ k ih =>
    intro a b ha0 hb0 ha hb
    rcases a with _ | ⟨a0, as⟩
    · simp at ha0
    rcases b with _ | ⟨b0, bs⟩
    · simp at hb0
    have ha0l : a0 < 256 := ha a0 (by simp)
    have hb0l : b0 < 256 := hb b0 (by simp)
    have hxl : a0 ^^^ b0 < 256 := xor_byte_lt ha0l hb0l
    have hpack : bytesToWord (a0 :: as) ^^^ bytesToWord (b0 :: bs)
        = (a0 ^^^ b0) + 256 * (bytesToWord as ^^^ bytesToWord bs) := by
      rw [bytesToWord_cons, bytesToWord_cons,
          xor_byte_peel a0 b0 _ _ ha0l hb0l]
    have hunf : wordToBytes (k + 1) (bytesToWord (a0 :: as) ^^^ bytesToWord (b0 :: bs))
        = ((bytesToWord (a0 :: as) ^^^ bytesToWord (b0 :: bs)) % 256)
          :: wordToBytes k ((bytesToWord (a0 :: as) ^^^ bytesToWord (b0 :: bs)) / 256) := rfl
    rw [hunf, hpack, Nat.add_mul_mod_self_left, Nat.mod_eq_of_lt hxl,
        Nat.add_mul_div_left _ _ (by norm_num : (0 : Nat) < 256),
        Nat.div_eq_of_lt hxl, Nat.zero_add]
    have hcons : refXor (a0 :: as) (b0 :: bs) = (a0 ^^^ b0) :: refXor as bs := rfl
    rw [hcons, ih as bs (by simpa using ha0) (by simpa using hb0)
        (fun v hv => ha v (by simp [hv])) (fun v hv => hb v (by simp [hv]))]

theorem wordLoop_eq_refXor : ∀ (k : Nat) (a b : List Nat), a.length = b.length →
    8 * k ≤ a.length → isByteBuf a → isByteBuf b →
    wordLoop k a b = refXor a b := by
  intro k
  induction k with
  | zero => intro a b _ _ _ _; rfl
  | succ k ih =>
    intro a b hlen hk ha hb
    have htake : (a.take 8).length = 8 := by rw [List.length_take]; omega
    have htakeb : (b.take 8).length = 8 := by rw [List.length_take]; omega
    have hta : isByteBuf (a.take 8) := fun v hv => ha v (List.take_subset 8 a hv)
    have htb : isByteBuf (b.take 8) := fun v hv => hb v (List.take_subset 8 b hv)
    have hda : isByteBuf (a.drop 8) := fun v hv => ha v (List.drop_subset 8 a hv)
    have hdb : isByteBuf (b.drop 8) := fun v hv => hb v (List.drop_subset 8 b hv)
    have hdlen : (a.drop 8).length = (b.drop 8).length := by
      rw [List.length_drop, List.length_drop, hlen]
    have hdk : 8 * k ≤ (a.drop 8).length := by rw [List.length_drop]; omega
    calc wordLoop (k + 1) a b
        = wordToBytes 8 (bytesToWord (a.take 8) ^^^ bytesToWord (b.take 8))
            ++ wordLoop k (a.drop 8) (b.drop 8) := rfl
      _ = refXor (a.take 8) (b.take 8) ++ refXor (a.drop 8) (b.drop 8) := by
            rw [wordToBytes_xor 8 (a.take 8) (b.take 8) htake htakeb hta htb,
                ih (a.drop 8) (b.drop 8) hdlen hdk hda hdb]
      _ = refXor a b := by
            simp only [refXor]
            rw [← List.zipWith_append _ _ _ _ _ (by rw [htake, htakeb]),
                List.take_append_drop, List.take_append_drop]

theorem alignedLoop_eq_wordLoop : ∀ (k : Nat) (a b : List Nat),
    a.length = b.length → a.length = 8 * k →
    alignedLoop k a b = wordLoop k a b := by
  intro k
  induction k with
  | zero =>
    intro a b hlen h0
    rw [List.eq_nil_of_length_eq_zero h0,
        List.eq_nil_of_length_eq_zero (by omega : b.length = 0)]
    rfl
  | succ k ih =>
    intro a b hlen hk
    show wordToBytes 8 (bytesToWord (a.take 8) ^^^ bytesToWord (b.take 8))
          ++ alignedLoop k (a.drop 8) (b.drop 8)
        = wordToBytes 8 (bytesToWord (a.take 8) ^^^ bytesToWord (b.take 8))
          ++ wordLoop k (a.drop 8) (b.drop 8)
    rw [ih (a.drop 8) (b.drop 8)
        (by rw [List.length_drop, List.length_drop, hlen])
        (by rw [List.length_drop, hk]; omega)]

theorem wordToBytes_length (k : Nat) : ∀ n : Nat, (wordToBytes k n).length = k := by
  induction k with
  | zero => intro n; rfl
  | succ k ih => intro n; simp [wordToBytes, ih]

theorem wordLoop_length : ∀ (k : Nat) (a b : List Nat), a.length = b.length →
    8 * k ≤ a.length → (wordLoop k a b).length = a.length := by
  intro k
  induction k with
  | zero => intro a b h _; simp [wordLoop, refXor, h]
  | succ k ih =>
    intro a b h hk
    show (wordToBytes 8 (bytesToWord (a.take 8) ^^^ bytesToWord (b.take 8))
          ++ wordLoop k (a.drop 8) (b.drop 8)).length = a.length
    rw [List.length_append, wordToBytes_length,
        ih (a.drop 8) (b.drop 8)
          (by rw [List.length_drop, List.length_drop, h])
          (by rw [List.length_drop]; omega),
        List.length_drop]
    omega

theorem alignedLoop_length : ∀ (k : Nat) (a b : List Nat),
    (alignedLoop k a b).length = 8 * k := by
  intro k
  induction k with
  | zero => intro a b; rfl
  | succ k ih =>
    intro a b
    show (wordToBytes 8 (bytesToWord (a.take 8) ^^^ bytesToWord (b.take 8))
          ++ alignedLoop k (a.drop 8) (b.drop 8)).length = 8 * (k + 1)
    rw [List.length_append, wordToBytes_length, ih]
    omega

theorem wordLoop_comm : ∀ (k : Nat) (a b : List Nat), wordLoop k a b = wordLoop k b a := by
  intro k
  induction k with
  | zero =>
    intro a b
    show refXor a b = refXor b a
    simp only [refXor]
    exact List.zipWith_comm_of_comm _ (fun x y => Nat.xor_comm x y) a b
  | succ k ih =>
    intro a b
    show wordToBytes 8 (bytesToWord (a.take 8) ^^^ bytesToWord (b.take 8))
          ++ wordLoop k (a.drop 8) (b.drop 8)
        = wordToBytes 8 (bytesToWord (b.take 8) ^^^ bytesToWord (a.take 8))
          ++ wordLoop k (b.drop 8) (a.drop 8)
    rw [Nat.xor_comm (bytesToWord (a.take 8)) (bytesToWord (b.take 8)),
        ih (a.drop 8) (b.drop 8)]

theorem refXor_length (a b : List Nat) (h : a.length = b.length) :
    (refXor a b).length = a.length := by
  simp [refXor, h]

theorem refXor_mem_lt : ∀ (a b : List Nat), isByteBuf a → isByteBuf b →
    isByteBuf (refXor a b) := by
  intro a
  induction a with
  | nil => intro b _ _ v hv; simp [refXor] at hv
  | cons a0 as ih =>
    intro b ha hb v hv
    rcases b with _ | ⟨b0, bs⟩
    · simp [refXor] at hv
    · rcases List.mem_cons.mp (by simpa [refXor] using hv) with h | h
      · rw [h]
        exact xor_byte_lt (ha a0 (by simp)) (hb b0 (by simp))
      · exact ih bs (fun u hu => ha u (by simp [hu])) (fun u hu => hb u (by simp [hu]))
          v (by simpa [refXor] using h)

theorem refXor_cancel : ∀ (a b : List Nat), a.length = b.length →
    refXor (refXor a b) b = a := by
  intro a
  induction a with
  | nil => intro b _; rfl
  | cons a0 as ih =>
    intro b h
    rcases b with _ | ⟨b0, bs⟩
    · simp at h
    · show ((a0 ^^^ b0) ^^^ b0) :: refXor (refXor as bs) bs = a0 :: as
      rw [Nat.xor_assoc, Nat.xor_self, Nat.xor_zero, ih bs (by simpa using h)]

theorem xor_ok (a b : List Nat) (h : a.length = b.length)
    (ha : isByteBuf a) (hb : isByteBuf b) :
    Fastxor.xor a b = Except.ok (refXor a b) := by
  simp only [Fastxor.xor, WORD_SIZE]
  rw [if_pos h, wordLoop_eq_refXor (a.length / 8) a b h (by omega) ha hb]

theorem xor_mismatch (a b : List Nat) (h : a.length ≠ b.length) :
    Fastxor.xor a b = Except.error (FXError.lengthMismatch a.length b.length) := by
  simp only [Fastxor.xor, WORD_SIZE]
  rw [if_neg h]

theorem xor64_mismatch (a b : List Nat) (h : a.length ≠ b.length) :
    xor64 a b = Except.error (FXError.lengthMismatch a.length b.length) := by
  simp only [xor64, WORD_SIZE]
  rw [if_pos h]

theorem xor64_unaligned_err (a b : List Nat) (h : a.length = b.length)
    (h8 : a.length % 8 ≠ 0) :
    xor64 a b = Except.error (FXError.unaligned a.length 8) := by
  simp only [xor64, WORD_SIZE]
  rw [if_neg (by omega), if_pos h8]

/-- C1: for every pair of equal-length byte buffers A and B, `xor`
(xor_flexible) succeeds and returns a buffer of the same length whose
i-th byte equals `A[i] XOR B[i]` for every index i, bit-identical to the
naive byte-by-byte reference XOR of the Python test. -/
theorem xor_flexible_matches_reference (a b : List Nat) (h : a.length = b.length)
    (ha : isByteBuf a) (hb : isByteBuf b) :
    Fastxor.xor a b = Except.ok (refXor a b) ∧
    (refXor a b).length = a.length ∧
    ∀ (i : Nat) (hi : i < (refXor a b).length) (hia : i < a.length)
      (hib : i < b.length),
      (refXor a b).get ⟨i, hi⟩ = (a.get ⟨i, hia⟩) ^^^ (b.get ⟨i, hib⟩) := by
  refine ⟨xor_ok a b h ha hb, refXor_length a b h, ?_⟩
  intro i hi hia hib
  simp [refXor, List.get_eq_getElem, List.getElem_zipWith]

/-- Witness for C1 at a 9-byte pair (one full word plus one tail byte). -/
theorem xor_flexible_matches_reference_witness :
    Fastxor.xor [1, 2, 3, 4, 5, 6, 7, 8, 9] [255, 128, 64, 32, 16, 8, 4, 2, 1]
        = Except.ok (refXor [1, 2, 3, 4, 5, 6, 7, 8, 9] [255, 128, 64, 32, 16, 8, 4, 2, 1]) ∧
    (refXor [1, 2, 3, 4, 5, 6, 7, 8, 9] [255, 128, 64, 32, 16, 8, 4, 2, 1]).length
        = List.length [1, 2, 3, 4, 5, 6, 7, 8, 9] ∧
    ∀ (i : Nat)
      (hi : i < (refXor [1, 2, 3, 4, 5, 6, 7, 8, 9] [255, 128, 64, 32, 16, 8, 4, 2, 1]).length)
      (hia : i < List.length [1, 2, 3, 4, 5, 6, 7, 8, 9])
      (hib : i < List.length [255, 128, 64, 32, 16, 8, 4, 2, 1]),
      (refXor [1, 2, 3, 4, 5, 6, 7, 8, 9] [255, 128, 64, 32, 16, 8, 4, 2, 1]).get ⟨i, hi⟩
        = (List.get [1, 2, 3, 4, 5, 6, 7, 8, 9] ⟨i, hia⟩)
            ^^^ (List.get [255, 128, 64, 32, 16, 8, 4, 2, 1] ⟨i, hib⟩) :=
  xor_flexible_matches_reference [1, 2, 3, 4, 5, 6, 7, 8, 9]
    [255, 128, 64, 32, 16, 8, 4, 2, 1] (by decide) (by decide) (by decide)

/-- C2: for every pair of equal-length buffers whose common length is a
multiple of 8, `xor64` (xor_aligned) returns exactly the same result as
`xor` (xor_flexible) on the same inputs. -/
theorem xor_aligned_eq_flexible (a b : List Nat) (h : a.length = b.length)
    (h8 : a.length % 8 = 0) : xor64 a b = Fastxor.xor a b := by
  simp only [xor64, Fastxor.xor, WORD_SIZE]
  rw [if_neg (by omega), if_neg (by omega), if_pos h,
      alignedLoop_eq_wordLoop (a.length / 8) a b h (by omega)]

/-- Witness for C2 at an 8-byte pair. -/
theorem xor_aligned_eq_flexible_witness :
    xor64 [0, 1, 2, 3, 4, 5, 6, 7] [7, 6, 5, 4, 3, 2, 1, 0]
      = Fastxor.xor [0, 1, 2, 3, 4, 5, 6, 7] [7, 6, 5, 4, 3, 2, 1, 0] :=
  xor_aligned_eq_flexible [0, 1, 2, 3, 4, 5, 6, 7] [7, 6, 5, 4, 3, 2, 1, 0]
    (by decide) (by decide)

/-- C3: for every pair of buffers of different lengths, both `xor` and
`xor64` fail with a LengthMismatch error carrying both lengths; in
`xor64` the length check precedes the alignment check, so mismatched
lengths report LengthMismatch even when a length is also unaligned. -/
theorem length_mismatch_rejected (a b : List Nat) (h : a.length ≠ b.length) :
    Fastxor.xor a b = Except.error (FXError.lengthMismatch a.length b.length) ∧
    xor64 a b = Except.error (FXError.lengthMismatch a.length b.length) :=
  ⟨xor_mismatch a b h, xor64_mismatch a b h⟩

/-- Witness for C3 at a 7-byte versus 8-byte pair (the 7-byte side is
also unaligned, yet LengthMismatch is reported). -/
theorem length_mismatch_rejected_witness :
    Fastxor.xor [49, 50, 51, 52, 53, 54, 55] [49, 50, 51, 52, 53, 54, 55, 56]
        = Except.error (FXError.lengthMismatch 7 8) ∧
    xor64 [49, 50, 51, 52, 53, 54, 55] [49, 50, 51, 52, 53, 54, 55, 56]
        = Except.error (FXError.lengthMismatch 7 8) :=
  length_mismatch_rejected [49, 50, 51, 52, 53, 54, 55]
    [49, 50, 51, 52, 53, 54, 55, 56] (by decide)

/-- C4: for every pair of equal-length buffers whose common length is
not a multiple of 8, `xor64` fails with an Unaligned error and returns
no result. -/
theorem unaligned_rejected (a b : List Nat) (h : a.length = b.length)
    (h8 : a.length % WORD_SIZE ≠ 0) :
    xor64 a b = Except.error (FXError.unaligned a.length WORD_SIZE) :=
  xor64_unaligned_err a b h (by simpa [WORD_SIZE] using h8)

/-- Witness for C4 at the spec's 7-byte example b"1234567". -/
theorem unaligned_rejected_witness :
    xor64 [49, 50, 51, 52, 53, 54, 55] [49, 50, 51, 52, 53, 54, 55]
      = Except.error (FXError.unaligned 7 8) :=
  unaligned_rejected [49, 50, 51, 52, 53, 54, 55] [49, 50, 51, 52, 53, 54, 55]
    (by decide) (by decide)

/-- C5: two zero-length buffers are valid input to `xor`
(xor_flexible): the call does not fail and returns a zero-length
result. -/
theorem zero_length_ok :
    Fastxor.xor ([] : List Nat) ([] : List Nat) = Except.ok ([] : List Nat) := rfl

/-- C6: for every pair of equal-length byte buffers A and B, XOR-ing
with B twice recovers A: `xor (xor A B) B = A`. -/
theorem xor_flexible_involution (a b : List Nat) (h : a.length = b.length)
    (ha : isByteBuf a) (hb : isByteBuf b) :
    ∃ r, Fastxor.xor a b = Except.ok r ∧ Fastxor.xor r b = Except.ok a :=
  ⟨refXor a b, xor_ok a b h ha hb, by
    rw [xor_ok (refXor a b) b (by rw [refXor_length a b h, h])
          (refXor_mem_lt a b ha hb) hb,
        refXor_cancel a b h]⟩

/-- Witness for C6 at a 9-byte pair. -/
theorem xor_flexible_involution_witness :
    ∃ r, Fastxor.xor [10, 20, 30, 40, 50, 60, 70, 80, 90] [1, 3, 5, 7, 9, 11, 13, 15, 17]
          = Except.ok r ∧
        Fastxor.xor r [1, 3, 5, 7, 9, 11, 13, 15, 17]
          = Except.ok [10, 20, 30, 40, 50, 60, 70, 80, 90] :=
  xor_flexible_involution [10, 20, 30, 40, 50, 60, 70, 80, 90]
    [1, 3, 5, 7, 9, 11, 13, 15, 17] (by decide) (by decide) (by decide)

/-- C7: for every pair of equal-length buffers A and B,
`xor A B = xor B A` (commutativity). -/
theorem xor_flexible_comm (a b : List Nat) (h : a.length = b.length) :
    Fastxor.xor a b = Fastxor.xor b a := by
  simp only [Fastxor.xor, WORD_SIZE]
  rw [if_pos h, if_pos h.symm, h, wordLoop_comm (b.length / 8) a b]

/-- Witness for C7 at a 9-byte pair. -/
theorem xor_flexible_comm_witness :
    Fastxor.xor [10, 20, 30, 40, 50, 60, 70, 80, 90] [9, 8, 7, 6, 5, 4, 3, 2, 1]
      = Fastxor.xor [9, 8, 7, 6, 5, 4, 3, 2, 1] [10, 20, 30, 40, 50, 60, 70, 80, 90] :=
  xor_flexible_comm [10, 20, 30, 40, 50, 60, 70, 80, 90]
    [9, 8, 7, 6, 5, 4, 3, 2, 1] (by decide)

/-- C8: for every successful call of `xor` or `xor64`, the returned
buffer has the length of both inputs. -/
theorem xor_result_length (a b r : List Nat) :
    (Fastxor.xor a b = Except.ok r → r.length = a.length ∧ r.length = b.length) ∧
    (xor64 a b = Except.ok r → r.length = a.length ∧ r.length = b.length) := by
  constructor
  · intro hok
    simp only [Fastxor.xor, WORD_SIZE] at hok
    by_cases h : a.length = b.length
    · rw [if_pos h] at hok
      have hr := Except.ok.inj hok
      rw [← hr, wordLoop_length (a.length / 8) a b h (by omega)]
      exact ⟨rfl, h⟩
    · rw [if_neg h] at hok
      exact Except.noConfusion hok
  · intro hok
    simp only [xor64, WORD_SIZE] at hok
    by_cases h : a.length = b.length
    · rw [if_neg (by omega)] at hok
      by_cases h8 : a.length % 8 = 0
      · rw [if_neg (by omega)] at hok
        have hr := Except.ok.inj hok
        rw [← hr, alignedLoop_length (a.length / 8) a b]
        constructor <;> omega
      · rw [if_pos (by omega)] at hok
        exact Except.noConfusion hok
    · rw [if_pos (by omega)] at hok
      exact Except.noConfusion hok

/-- Witness for C8 at an 8-byte pair on which both entry points
succeed with the same output buffer. -/
theorem xor_result_length_witness :
    (List.length [9, 5, 5, 1, 1, 5, 5, 9] = List.length [1, 2, 3, 4, 5, 6, 7, 8] ∧
     List.length [9, 5, 5, 1, 1, 5, 5, 9] = List.length [8, 7, 6, 5, 4, 3, 2, 1]) ∧
    (List.length [9, 5, 5, 1, 1, 5, 5, 9] = List.length [1, 2, 3, 4, 5, 6, 7, 8] ∧
     List.length [9, 5, 5, 1, 1, 5, 5, 9] = List.length [8, 7, 6, 5, 4, 3, 2, 1]) :=
  ⟨(xor_result_length [1, 2, 3, 4, 5, 6, 7, 8] [8, 7, 6, 5, 4, 3, 2, 1]
      [9, 5, 5, 1, 1, 5, 5, 9]).1 (by rfl),
   (xor_result_length [1, 2, 3, 4, 5, 6, 7, 8] [8, 7, 6, 5, 4, 3, 2, 1]
      [9, 5, 5, 1, 1, 5, 5, 9]).2 (by rfl)⟩

/-- C9: `get_info` (get_capabilities) is a pure constant that never
fails and returns a fixed static record with the word size in bytes,
the version identifier and the active strategy. -/
theorem get_info_static :
    get_info = ModuleInfo.mk WORD_SIZE "1.0.0" "64-bit word XOR" ∧
    get_info.word_size = 8 ∧
    get_info.version = "1.0.0" ∧
    get_info.strategy = "64-bit word XOR" :=
  ⟨rfl, rfl, rfl, rfl⟩

/-- C10: both validation failure kinds of `xor64` surface to Python as
the concrete exception type ValueError: on unequal input lengths and on
an equal length that is not a multiple of 8 alike. -/
theorem validation_errors_are_ValueError (a b c d : List Nat)
    (hmis : a.length ≠ b.length) (heq : c.length = d.length)
    (hal : c.length % WORD_SIZE ≠ 0) :
    (∃ e, xor64 a b = Except.error e ∧ pyExcType e = "ValueError") ∧
    (∃ e, xor64 c d = Except.error e ∧ pyExcType e = "ValueError") :=
  ⟨⟨FXError.lengthMismatch a.length b.length, xor64_mismatch a b hmis, rfl⟩,
   ⟨FXError.unaligned c.length 8,
    xor64_unaligned_err c d heq (by simpa [WORD_SIZE] using hal), rfl⟩⟩

/-- Witness for C10 at the test's inputs: b"12345678" versus
b"1234567890" for the mismatch, b"1234567" twice for the unaligned
case. -/
theorem validation_errors_are_ValueError_witness :
    (∃ e, xor64 [49, 50, 51, 52, 53, 54, 55, 56]
            [49, 50, 51, 52, 53, 54, 55, 56, 57, 48] = Except.error e ∧
          pyExcType e = "ValueError") ∧
    (∃ e, xor64 [49, 50, 51, 52, 53, 54, 55] [49, 50, 51, 52, 53, 54, 55]
            = Except.error e ∧
          pyExcType e = "ValueError") :=
  validation_errors_are_ValueError [49, 50, 51, 52, 53, 54, 55, 56]
    [49, 50, 51, 52, 53, 54, 55, 56, 57, 48]
    [49, 50, 51, 52, 53, 54, 55] [49, 50, 51, 52, 53, 54, 55]
    (by decide) (by decide) (by decide)

end Fastxor
